import Mathlib

/-!
Verification development for the `mt-novel` repository.

The repository is a Next.js app with one backend route,
`src/app/api/refine/route.js`.  The definitions below are a shallow
embedding of that file: text is modelled as `List Char`, the external
generation service as an oracle function `List Char → Option (List Char)`
(`none` = the upstream call throws), time as a `Nat` millisecond clock,
and the module-level mutable rate-limit variables as an explicit
`RLState` threaded through `POST`.
-/

namespace MTNovel

/-- `RATE_LIMIT_WINDOW = 60 * 60 * 1000` (route.js line 60). -/
def RATE_LIMIT_WINDOW : Nat := 60 * 60 * 1000

/-- `MAX_REQUESTS = 60` (route.js line 61). -/
def MAX_REQUESTS : Nat := 60

/-- `CHUNK_SIZE = 4000` (route.js line 62). -/
def CHUNK_SIZE : Nat := 4000

/-- `MAX_TOTAL_LENGTH = 50000` (route.js line 63). -/
def MAX_TOTAL_LENGTH : Nat := 50000

/-- The whitespace class used by JavaScript `trim()` and `\s`, restricted to
the ASCII whitespace characters that can occur in this development. -/
def isWs (c : Char) : Bool := c = ' ' || c = '\t' || c = '\n' || c = '\r'

/-- JavaScript `String.prototype.trim()`: drop leading and trailing
whitespace. -/
def trim (cs : List Char) : List Char :=
  ((cs.dropWhile isWs).reverse.dropWhile isWs).reverse

/-- Sentence-terminal punctuation, the character class `[.!?]` of the
sentence regex in `splitIntoChunks` (route.js line 84). -/
def isTerm (c : Char) : Bool := c = '.' || c = '!' || c = '?'

/-- One step of the scanner implementing `text.split(/\n\n+/)`
(route.js line 71).  State: completed paragraphs in reverse order,
the current paragraph in reverse character order, and the number of
pending newline characters not yet assigned to a paragraph or separator. -/
def paraSplitStep : List (List Char) × List Char × Nat → Char →
    List (List Char) × List Char × Nat
  | (done, cur, pend), c =>
    if c = '\n' then (done, cur, pend + 1)
    else if pend ≥ 2 then (cur.reverse :: done, [c], 0)
    else (done, c :: (List.replicate pend '\n' ++ cur), 0)

/-- Close the paragraph scanner at the end of the input.  A run of two
or more pending newlines at the end is a final separator, yielding a
trailing empty paragraph, exactly as JavaScript `split` does. -/
def finishParas : List (List Char) × List Char × Nat → List (List Char)
  | (done, cur, pend) =>
    (if pend ≥ 2 then ([] : List Char) :: cur.reverse :: done
     else (List.replicate pend '\n' ++ cur).reverse :: done).reverse

/-- `text.split(/\n\n+/)`: split on maximal runs of two or more
newlines. -/
def splitParas (text : List Char) : List (List Char) :=
  finishParas (text.foldl paraSplitStep ([], [], 0))

/-- One step of the scanner implementing the global regex match
`paragraph.match(/[^.!?]+[.!?]+/g)` (route.js line 84).  State:
completed matches in reverse order, the body `[^.!?]+` of the current
candidate match in reverse character order, and its terminator run
`[.!?]+` in reverse character order. -/
def sentMatchStep : List (List Char) × List Char × List Char → Char →
    List (List Char) × List Char × List Char
  | (ms, body, terms), c =>
    if isTerm c then
      if body = [] then (ms, [], [])
      else (ms, body, c :: terms)
    else
      if terms = [] then (ms, c :: body, [])
      else ((terms ++ body).reverse :: ms, [c], [])

/-- Close the sentence scanner at the end of the input: a candidate
match with at least one terminator is completed, a candidate with none
is discarded. -/
def finishSents : List (List Char) × List Char × List Char →
    List (List Char)
  | (ms, body, terms) =>
    (if terms = [] then ms else (terms ++ body).reverse :: ms).reverse

/-- `paragraph.match(/[^.!?]+[.!?]+/g)`: the list of maximal
non-terminator runs followed by maximal terminator runs, scanned left to
right.  Leading terminators and a trailing fragment with no terminator
belong to no match and are discarded, exactly as the regex does. -/
def matchSentences (p : List Char) : List (List Char) :=
  finishSents (p.foldl sentMatchStep ([], [], []))

/-- `paragraph.match(...) || [paragraph]` (route.js line 84): fall back to
the whole paragraph when the regex has no match at all. -/
def sentencesOf (p : List Char) : List (List Char) :=
  let m := matchSentences p
  if m = [] then [p] else m

/-- The inner slicing loop for a single over-long sentence
(route.js lines 88-90): fixed-size slices of `CHUNK_SIZE` characters,
each trimmed. -/
def forceSlice (s : List Char) : List (List Char) :=
  if s = [] then []
  else trim (s.take CHUNK_SIZE) :: forceSlice (s.drop CHUNK_SIZE)
termination_by s.length
decreasing_by
  simp only [List.length_drop, CHUNK_SIZE]
  have : 0 < s.length := List.length_pos.mpr (by assumption)
  omega

/-- The body of the sentence loop in `splitIntoChunks`
(route.js lines 85-99).  State: chunks emitted so far and the current
chunk under accumulation. -/
def sentStep : List (List Char) × List Char → List Char →
    List (List Char) × List Char
  | (chunks, cur), s =>
    if s.length > CHUNK_SIZE then (chunks ++ forceSlice s, cur)
    else if (cur ++ s).length > CHUNK_SIZE then (chunks ++ [trim cur], s)
    else (chunks, cur ++ (if cur = [] then [] else [' ']) ++ s)

/-- The body of the paragraph loop in `splitIntoChunks`
(route.js lines 73-106). -/
def paraStep : List (List Char) × List Char → List Char →
    List (List Char) × List Char
  | (chunks, cur), p =>
    if (cur ++ p).length > CHUNK_SIZE then
      let chunks1 := if cur = [] then chunks else chunks ++ [trim cur]
      if p.length > CHUNK_SIZE then (sentencesOf p).foldl sentStep (chunks1, [])
      else (chunks1, p)
    else (chunks, cur ++ (if cur = [] then [] else ['\n', '\n']) ++ p)

/-- Push the last chunk if not empty (route.js lines 109-111). -/
def finishChunks : List (List Char) × List Char → List (List Char)
  | (chunks, cur) => if cur = [] then chunks else chunks ++ [trim cur]

/-- `splitIntoChunks` (route.js lines 66-114). -/
def splitIntoChunks (text : List Char) : List (List Char) :=
  finishChunks ((splitParas text).foldl paraStep ([], []))

/-- `refinedChunks.join('\n\n\n')` (route.js line 190). -/
def joinSep : List (List Char) → List Char
  | [] => []
  | [c] => c
  | c :: cs => c ++ '\n' :: '\n' :: '\n' :: joinSep cs

/-- A run of `pend` pending newlines after the replacement
`.replace(/\n{4,}/g, '\n\n\n')`: runs of four or more newlines become
three, shorter runs are kept. -/
def nlRun (pend : Nat) : List Char :=
  List.replicate (if pend ≥ 4 then 3 else pend) '\n'

/-- One step of the scanner implementing `.replace(/\n{4,}/g, '\n\n\n')`
(route.js lines 191 and 194).  State: output so far in reverse order and
the number of pending newlines. -/
def collapseNlStep : List Char × Nat → Char → List Char × Nat
  | (acc, pend), c =>
    if c = '\n' then (acc, pend + 1)
    else (c :: (nlRun pend ++ acc), 0)

/-- `.replace(/\n{4,}/g, '\n\n\n')` (route.js lines 191 and 194). -/
def collapseNl (cs : List Char) : List Char :=
  let st := cs.foldl collapseNlStep ([], 0)
  (nlRun st.2 ++ st.1).reverse

/-- One step of the scanner implementing
`.replace(/([.!?])\s+/g, '$1\n\n')` (route.js line 192).  State: output
so far in reverse order and, when the scanner sits just after a
sentence-terminal character, that character together with whether at
least one whitespace character followed it. -/
def sentSpaceStep : List Char × Option (Char × Bool) → Char →
    List Char × Option (Char × Bool)
  | (acc, none), c =>
    if isTerm c then (acc, some (c, false)) else (c :: acc, none)
  | (acc, some (t, sawWs)), c =>
    if isWs c then (acc, some (t, true))
    else
      let acc1 := if sawWs then '\n' :: '\n' :: t :: acc else t :: acc
      if isTerm c then (acc1, some (c, false)) else (c :: acc1, none)

/-- `.replace(/([.!?])\s+/g, '$1\n\n')` (route.js line 192). -/
def sentSpace (cs : List Char) : List Char :=
  let st := cs.foldl sentSpaceStep ([], none)
  (match st.2 with
   | none => st.1
   | some (t, sawWs) =>
     if sawWs then '\n' :: '\n' :: t :: st.1 else t :: st.1).reverse

/-- One step of the scanner implementing
`.replace(/"([^"]+)"/g, '\n"$1"\n\n')` (route.js line 193).  State:
output so far in reverse order and, when the scanner is past an opening
quote with no closing quote yet, the candidate quoted body in reverse
order. -/
def quoteStep : List Char × Option (List Char) → Char →
    List Char × Option (List Char)
  | (acc, none), c =>
    if c = '"' then (acc, some []) else (c :: acc, none)
  | (acc, some body), c =>
    if c = '"' then
      if body = [] then ('"' :: acc, some [])
      else ('\n' :: '\n' :: '"' :: (body ++ '"' :: '\n' :: acc), none)
    else (acc, some (c :: body))

/-- `.replace(/"([^"]+)"/g, '\n"$1"\n\n')` (route.js line 193). -/
def quoteLines (cs : List Char) : List Char :=
  let st := cs.foldl quoteStep ([], none)
  (match st.2 with
   | none => st.1
   | some body => body ++ '"' :: st.1).reverse

/-- The reassembly of refined chunks (route.js lines 188-195):
trim each chunk, join with `'\n\n\n'`, then the four regex passes and a
final trim. -/
def reassemble (refinedChunks : List (List Char)) : List Char :=
  trim (collapseNl (quoteLines (sentSpace (collapseNl
    (joinSep (refinedChunks.map trim))))))

/-- The module-level mutable rate-limit state `requestCount` /
`windowStart` (route.js lines 124-125). -/
structure RLState where
  requestCount : Nat
  windowStart : Nat
deriving DecidableEq

/-- The result of one `POST` call: HTTP status, the `error` field of the
JSON body when present, the `refinedText` field when present, the
rate-limit state after the call, and the list of chunks dispatched to
the external generation service during the call. -/
structure PostResult where
  status : Nat
  error : Option String
  refinedText : Option (List Char)
  state : RLState
  dispatched : List (List Char)
deriving DecidableEq

/-- The rolling-window reset (route.js lines 139-142): when more than
`RATE_LIMIT_WINDOW` milliseconds have passed since `windowStart`, zero
the counter and restart the window at the current time. -/
def resetState (now : Nat) (s : RLState) : RLState :=
  if now > s.windowStart + RATE_LIMIT_WINDOW then ⟨0, now⟩ else s

/-- `processChunk` (route.js lines 117-122): one call to the external
generation service, modelled by the oracle `service`. -/
def processChunk (service : List Char → Option (List Char))
    (chunk : List Char) : Option (List Char) :=
  service chunk

/-- `Promise.all(chunks.map(processChunk))` (route.js lines 176-185):
refine every chunk, in order; any single failure fails the whole batch. -/
def refineAll (service : List Char → Option (List Char)) :
    List (List Char) → Option (List (List Char))
  | [] => some []
  | c :: cs =>
    match processChunk service c, refineAll service cs with
    | some r, some rs => some (r :: rs)
    | _, _ => none

/-- The error message of the over-length response (route.js line 164). -/
def tooLongMsg : String :=
  "Text exceeds maximum length of " ++ toString MAX_TOTAL_LENGTH ++ " characters"

/-- `POST` (route.js lines 127-215).  `hasApiKey` models the presence of
the `GEMINI_API_KEY` environment variable; `body` models the request
body: `none` when `request.json()` throws, `some none` when the `text`
field is missing, `some (some t)` when it is the string `t`. -/
def POST (hasApiKey : Bool) (service : List Char → Option (List Char))
    (now : Nat) (body : Option (Option (List Char))) (s : RLState) :
    PostResult :=
  if !hasApiKey then
    ⟨500, some "API configuration error", none, s, []⟩
  else
    let s1 := resetState now s
    if s1.requestCount ≥ MAX_REQUESTS then
      ⟨429, some "Rate limit exceeded. Please try again later.", none, s1, []⟩
    else
      match body with
      | none => ⟨500, some "Failed to refine text. Please try again.", none, s1, []⟩
      | some textOpt =>
        match textOpt with
        | none => ⟨400, some "No text provided", none, s1, []⟩
        | some text =>
          if text = [] ∨ (trim text).length = 0 then
            ⟨400, some "No text provided", none, s1, []⟩
          else if text.length > MAX_TOTAL_LENGTH then
            ⟨400, some tooLongMsg, none, s1, []⟩
          else
            let chunks := splitIntoChunks text
            match refineAll service chunks with
            | none =>
              ⟨500, some "Failed to refine text. Please try again.", none, s1, chunks⟩
            | some refined =>
              ⟨200, none, some (reassemble refined),
                ⟨s1.requestCount + chunks.length, s1.windowStart⟩, chunks⟩

/-! ## Whitespace-insensitive content -/

/-- The non-whitespace characters of a string, in order.  Two strings are
"equivalent modulo normalized whitespace" when they have the same
`stripWs`. -/
def stripWs (cs : List Char) : List Char := cs.filter (fun c => !isWs c)

/-- No two consecutive newline characters occur in the list, so
`text.split(/\n\n+/)` does not cut inside it. -/
def noNN : List Char → Bool
  | a :: b :: rest => !(a = '\n' && b = '\n') && noNN (b :: rest)
  | _ => true

/-- A well-formed paragraph: nonempty, contains no blank line, and does
not start or end with a newline character (otherwise an adjacent blank
line separator would absorb it). -/
def cleanPara (p : List Char) : Prop :=
  p ≠ [] ∧ noNN p = true ∧ p.head? ≠ some '\n' ∧ p.getLast? ≠ some '\n'

instance instDecidableCleanPara (p : List Char) : Decidable (cleanPara p) := by
  unfold cleanPara
  exact inferInstance

/-- The first character, if any, is not whitespace. -/
def headNotWs (p : List Char) : Bool :=
  match p.head? with
  | some c => !isWs c
  | none => true

/-- The last character, if any, is not whitespace. -/
def lastNotWs (p : List Char) : Bool :=
  match p.getLast? with
  | some c => !isWs c
  | none => true

/-- `'\n\n' ++ r` for each further paragraph `r`: the tail of a
blank-line-separated join. -/
def sepJoin : List (List Char) → List Char
  | [] => []
  | r :: rs => '\n' :: '\n' :: (r ++ sepJoin rs)

/-- The paragraph-splitter state reached after scanning well-formed
paragraphs: all but the last pushed (in reverse) onto `d`, the last one
held in reverse as the current paragraph, no pending newline. -/
def finState : List Char → List (List Char) → List (List Char) →
    List (List Char) × List Char × Nat
  | p, [], d => (d, p.reverse, 0)
  | p, r :: rs, d => finState r rs (p :: d)

lemma length_dropWhile_le (p : Char → Bool) (l : List Char) :
    (l.dropWhile p).length ≤ l.length := by
  induction l with
  | nil => simp
  | cons a t ih =>
    rw [List.dropWhile_cons]
    split
    · exact Nat.le_succ_of_le ih
    · simp

lemma trim_length_le (cs : List Char) : (trim cs).length ≤ cs.length := by
  unfold trim
  rw [List.length_reverse]
  calc ((cs.dropWhile isWs).reverse.dropWhile isWs).length
      ≤ (cs.dropWhile isWs).reverse.length := length_dropWhile_le _ _
    _ = (cs.dropWhile isWs).length := List.length_reverse _
    _ ≤ cs.length := length_dropWhile_le _ _

lemma stripWs_dropWhile (l : List Char) :
    stripWs (l.dropWhile isWs) = stripWs l := by
  induction l with
  | nil => rfl
  | cons a t ih =>
    by_cases h : isWs a
    · rw [List.dropWhile_cons, if_pos h, ih]
      simp [stripWs, List.filter_cons, h]
    · rw [List.dropWhile_cons, if_neg h]

lemma stripWs_reverse (l : List Char) :
    stripWs l.reverse = (stripWs l).reverse :=
  List.filter_reverse _ _

lemma stripWs_trim (cs : List Char) : stripWs (trim cs) = stripWs cs := by
  unfold trim
  rw [stripWs_reverse, stripWs_dropWhile, stripWs_reverse, stripWs_dropWhile,
    List.reverse_reverse]

lemma stripWs_append (l1 l2 : List Char) :
    stripWs (l1 ++ l2) = stripWs l1 ++ stripWs l2 :=
  List.filter_append _ _

lemma stripWs_replicate_nl (n : Nat) :
    stripWs (List.replicate n '\n') = [] := by
  rw [stripWs, List.filter_replicate]
  simp [isWs]

lemma noNN_cons {a : Char} {l : List Char} (h : noNN (a :: l) = true) :
    noNN l = true := by
  cases l with
  | nil => rfl
  | cons b t =>
    rw [noNN, Bool.and_eq_true] at h
    exact h.2

lemma noNN_of_not_mem_nl {l : List Char} (h : '\n' ∉ l) : noNN l = true := by
  induction l with
  | nil => rfl
  | cons a t ih =>
    cases t with
    | nil => rfl
    | cons b u =>
      rw [noNN, Bool.and_eq_true]
      refine ⟨?_, ih (fun hm => h (List.mem_cons_of_mem a hm))⟩
      have : a ≠ '\n' := fun hh => h (hh ▸ List.mem_cons_self a _)
      simp [this]

lemma getLast?_ne_of_not_mem {l : List Char} {c : Char} (h : c ∉ l) :
    l.getLast? ≠ some c := by
  intro hc
  exact h (List.mem_of_mem_getLast? hc)

lemma getLast?_cons_of_ne_nil {a : Char} {l : List Char} (h : l ≠ []) :
    (a :: l).getLast? = l.getLast? := by
  cases l with
  | nil => exact absurd rfl h
  | cons b t => exact List.getLast?_cons_cons

/-- Scanning one well-formed paragraph from a state with no pending
newline appends its characters to the current paragraph and leaves no
pending newline. -/
lemma paraFold_clean :
    ∀ (n : Nat) (p : List Char) (d : List (List Char)) (cur : List Char),
      p.length ≤ n → noNN p = true → p.getLast? ≠ some '\n' →
      p.foldl paraSplitStep (d, cur, 0) = (d, p.reverse ++ cur, 0) := by
  intro n
  induction n with
  | zero =>
    intro p d cur hlen _ _
    have : p = [] := List.eq_nil_of_length_eq_zero (Nat.le_zero.mp hlen)
    subst this
    simp
  | succ n ih =>
    intro p d cur hlen hnn hlast
    match p with
    | [] => simp
    | c :: t =>
      by_cases hc : c = '\n'
      · subst hc
        match t with
        | [] => exact absurd rfl hlast
        | c' :: t' =>
          have hc' : ¬(c' = '\n') := by
            intro h
            subst h
            rw [noNN] at hnn
            simp at hnn
          have hlast' : t'.getLast? ≠ some '\n' := by
            cases t' with
            | nil => simp
            | cons x u =>
              rw [List.getLast?_cons_cons, List.getLast?_cons_cons] at hlast
              exact hlast
          have hnn' : noNN t' = true := noNN_cons (noNN_cons hnn)
          rw [List.foldl_cons, List.foldl_cons]
          rw [show paraSplitStep (d, cur, 0) '\n' = (d, cur, 1) from by
            simp [paraSplitStep]]
          rw [show paraSplitStep (d, cur, 1) c' =
              (d, c' :: ('\n' :: cur), 0) from by
            simp [paraSplitStep, hc', List.replicate]]
          rw [ih t' d (c' :: '\n' :: cur) (by simp at hlen; omega) hnn' hlast']
          simp
      · have hlast' : t.getLast? ≠ some '\n' := by
          cases t with
          | nil => simp
          | cons x u =>
            rw [List.getLast?_cons_cons] at hlast
            exact hlast
        rw [List.foldl_cons]
        rw [show paraSplitStep (d, cur, 0) c = (d, c :: cur, 0) from by
          simp [paraSplitStep, hc, List.replicate]]
        rw [ih t d (c :: cur) (by simp at hlen; omega) (noNN_cons hnn) hlast']
        simp

/-- Scanning a head paragraph followed by blank-line-separated
well-formed paragraphs reaches exactly the `finState`. -/
lemma foldl_sepJoin :
    ∀ (rest : List (List Char)) (q cur : List Char) (d : List (List Char)),
      noNN q = true → q.getLast? ≠ some '\n' →
      (∀ r ∈ rest, cleanPara r) →
      (q ++ sepJoin rest).foldl paraSplitStep (d, cur, 0) =
        finState (cur.reverse ++ q) rest d := by
  intro rest
  induction rest with
  | nil =>
    intro q cur d hnn hlast _
    rw [sepJoin, List.append_nil,
      paraFold_clean q.length q d cur le_rfl hnn hlast, finState]
    simp
  | cons r rs ih =>
    intro q cur d hnn hlast hclean
    obtain ⟨hne, hnnr, hheadr, hlastr⟩ := hclean r (List.mem_cons_self r rs)
    match r, hne with
    | c :: t, _ =>
      have hc : ¬(c = '\n') := by
        intro h
        exact hheadr (by rw [h]; rfl)
      rw [sepJoin, show q ++ '\n' :: '\n' :: ((c :: t) ++ sepJoin rs) =
        q ++ ('\n' :: '\n' :: c :: (t ++ sepJoin rs)) from by simp,
        List.foldl_append,
        paraFold_clean q.length q d cur le_rfl hnn hlast,
        List.foldl_cons, List.foldl_cons, List.foldl_cons]
      rw [show paraSplitStep (d, q.reverse ++ cur, 0) '\n' =
          (d, q.reverse ++ cur, 1) from by simp [paraSplitStep]]
      rw [show paraSplitStep (d, q.reverse ++ cur, 1) '\n' =
          (d, q.reverse ++ cur, 2) from by simp [paraSplitStep]]
      rw [show paraSplitStep (d, q.reverse ++ cur, 2) c =
          ((q.reverse ++ cur).reverse :: d, [c], 0) from by
        simp [paraSplitStep, hc]]
      have htnn : noNN t = true := noNN_cons hnnr
      have htlast : t.getLast? ≠ some '\n' := by
        cases t with
        | nil => simp
        | cons x u =>
          rw [List.getLast?_cons_cons] at hlastr
          exact hlastr
      rw [ih t [c] ((q.reverse ++ cur).reverse :: d) htnn htlast
        (fun r hr => hclean r (List.mem_cons_of_mem _ hr))]
      rw [finState]
      simp

/-- Finishing the scan from a `finState` yields the paragraphs in
order. -/
lemma finish_finState :
    ∀ (rest : List (List Char)) (p : List Char) (d : List (List Char)),
      finishParas (finState p rest d) = d.reverse ++ p :: rest := by
  intro rest
  induction rest with
  | nil =>
    intro p d
    rw [finState, finishParas]
    simp
  | cons r rs ih =>
    intro p d
    rw [finState, ih]
    simp

/-- `text.split(/\n\n+/)` on a blank-line-separated join of well-formed
paragraphs recovers exactly the paragraphs.  The head paragraph may
start with a newline; the others must be `cleanPara`. -/
lemma splitParas_sepJoin (p : List Char) (rest : List (List Char))
    (hnn : noNN p = true) (hlast : p.getLast? ≠ some '\n')
    (hclean : ∀ r ∈ rest, cleanPara r) :
    splitParas (p ++ sepJoin rest) = p :: rest := by
  unfold splitParas
  rw [foldl_sepJoin rest p [] [] hnn hlast hclean,
    show List.reverse ([] : List Char) ++ p = p from by simp,
    finish_finState rest p []]
  simp

/-! ## Trim lemmas -/

lemma dropWhile_eq_self_of_head {l : List Char} (h : headNotWs l = true) :
    l.dropWhile isWs = l := by
  cases l with
  | nil => rfl
  | cons a t =>
    simp only [headNotWs, List.head?] at h
    rw [List.dropWhile_cons, if_neg (by simp at h; simp [h])]

lemma headNotWs_reverse (l : List Char) :
    headNotWs l.reverse = lastNotWs l := by
  rw [headNotWs, lastNotWs, List.head?_reverse]

lemma trim_eq_self {l : List Char} (h1 : headNotWs l = true)
    (h2 : lastNotWs l = true) : trim l = l := by
  unfold trim
  rw [dropWhile_eq_self_of_head h1,
    dropWhile_eq_self_of_head (by rw [headNotWs_reverse]; exact h2),
    List.reverse_reverse]

lemma headNotWs_append {p : List Char} (q : List Char) (h : p ≠ []) :
    headNotWs (p ++ q) = headNotWs p := by
  rw [headNotWs, headNotWs, List.head?_append_of_ne_nil p h]

lemma getLast?_sep (p : List Char) {q : List Char} (hq : q ≠ []) :
    (p ++ '\n' :: '\n' :: q).getLast? = q.getLast? := by
  rw [List.getLast?_append_of_ne_nil p (by simp), List.getLast?_cons_cons,
    getLast?_cons_of_ne_nil hq]

lemma lastNotWs_sep (p : List Char) {q : List Char} (hq : q ≠ []) :
    lastNotWs (p ++ '\n' :: '\n' :: q) = lastNotWs q := by
  rw [lastNotWs, lastNotWs, getLast?_sep p hq]

/-! ## Evaluating the paragraph loop -/

lemma paraStep_merge {chunks : List (List Char)} {cur p : List Char}
    (h : ¬(cur ++ p).length > CHUNK_SIZE) :
    paraStep (chunks, cur) p =
      (chunks, cur ++ (if cur = [] then [] else ['\n', '\n']) ++ p) := by
  simp only [paraStep]
  rw [if_neg h]

/-- C4: for any three well-formed paragraphs whose blank-line-separated
concatenation (separators included) is under the chunk-size bound,
`splitIntoChunks` returns exactly one chunk containing all three
paragraphs separated by the original paragraph breaks. -/
theorem C4_three_paragraphs_one_chunk (p1 p2 p3 : List Char)
    (h1 : cleanPara p1) (h2 : cleanPara p2) (h3 : cleanPara p3)
    (hw1 : headNotWs p1 = true) (hw3 : lastNotWs p3 = true)
    (hlen : (p1 ++ '\n' :: '\n' :: (p2 ++ '\n' :: '\n' :: p3)).length <
      CHUNK_SIZE) :
    splitIntoChunks (p1 ++ '\n' :: '\n' :: (p2 ++ '\n' :: '\n' :: p3)) =
      [p1 ++ '\n' :: '\n' :: (p2 ++ '\n' :: '\n' :: p3)] := by
  have hclean23 : ∀ r ∈ [p2, p3], cleanPara r := by
    intro r hr
    simp only [List.mem_cons, List.not_mem_nil, or_false] at hr
    rcases hr with hh | hh
    · exact hh ▸ h2
    · exact hh ▸ h3
  have hsplit : splitParas (p1 ++ '\n' :: '\n' :: (p2 ++ '\n' :: '\n' :: p3))
      = [p1, p2, p3] := by
    have := splitParas_sepJoin p1 [p2, p3] h1.2.1 h1.2.2.2 hclean23
    simpa [sepJoin] using this
  have hlc : p1.length + 2 + (p2.length + 2 + p3.length) < CHUNK_SIZE := by
    simp [List.length_append] at hlen
    omega
  have e1 : paraStep (([] : List (List Char)), ([] : List Char)) p1 =
      ([], p1) := by
    rw [paraStep_merge (by simp; omega)]
    simp
  have e2 : paraStep (([] : List (List Char)), p1) p2 =
      ([], p1 ++ ['\n', '\n'] ++ p2) := by
    rw [paraStep_merge (by simp [List.length_append]; omega)]
    rw [if_neg h1.1]
  have e3 : paraStep (([] : List (List Char)), p1 ++ ['\n', '\n'] ++ p2) p3 =
      ([], (p1 ++ ['\n', '\n'] ++ p2) ++ ['\n', '\n'] ++ p3) := by
    rw [paraStep_merge (by simp [List.length_append]; omega)]
    rw [if_neg (by simp [h1.1])]
  unfold splitIntoChunks
  rw [hsplit]
  simp only [List.foldl_cons, List.foldl_nil, e1, e2, e3]
  have hfull : p1 ++ ['\n', '\n'] ++ p2 ++ ['\n', '\n'] ++ p3 =
      p1 ++ '\n' :: '\n' :: (p2 ++ '\n' :: '\n' :: p3) := by simp
  rw [hfull]
  simp only [finishChunks]
  rw [if_neg (by simp [h1.1])]
  rw [trim_eq_self (by rw [headNotWs_append _ h1.1]; exact hw1)
    (by rw [lastNotWs_sep p1 (by simp [h2.1]), lastNotWs_sep p2 h3.1]
        exact hw3)]
  simp

/-! ## Chunk length bound -/

lemma forceSlice_le :
    ∀ (n : Nat) (s : List Char), s.length ≤ n →
      ∀ c ∈ forceSlice s, c.length ≤ CHUNK_SIZE := by
  intro n
  induction n with
  | zero =>
    intro s hs c hc
    have : s = [] := List.eq_nil_of_length_eq_zero (Nat.le_zero.mp hs)
    subst this
    rw [forceSlice] at hc
    simp at hc
  | succ n ih =>
    intro s hs c hc
    by_cases hnil : s = []
    · subst hnil
      rw [forceSlice] at hc
      simp at hc
    · rw [forceSlice, if_neg hnil] at hc
      rw [List.mem_cons] at hc
      rcases hc with hc | hc
      · subst hc
        calc (trim (s.take CHUNK_SIZE)).length
            ≤ (s.take CHUNK_SIZE).length := trim_length_le _
          _ ≤ CHUNK_SIZE := by simp [List.length_take]
      · refine ih (s.drop CHUNK_SIZE) ?_ c hc
        have : 0 < s.length := List.length_pos.mpr hnil
        simp only [List.length_drop, CHUNK_SIZE] at *
        omega

lemma forceSlice_bound {s c : List Char} (hc : c ∈ forceSlice s) :
    c.length ≤ CHUNK_SIZE :=
  forceSlice_le s.length s le_rfl c hc

/-- The invariant of the chunk-accumulation loops: every emitted chunk
and the chunk under accumulation stay within `CHUNK_SIZE + 2`. -/
def Bounded (st : List (List Char) × List Char) : Prop :=
  (∀ c ∈ st.1, c.length ≤ CHUNK_SIZE + 2) ∧ st.2.length ≤ CHUNK_SIZE + 2

lemma sentStep_bounded (st : List (List Char) × List Char) (s : List Char)
    (h : Bounded st) : Bounded (sentStep st s) := by
  obtain ⟨h1, h2⟩ := h
  rcases st with ⟨chunks, cur⟩
  simp only [sentStep]
  split
  · refine ⟨?_, h2⟩
    intro c hc
    rcases List.mem_append.mp hc with hc | hc
    · exact h1 c hc
    · exact Nat.le_add_right_of_le (forceSlice_bound hc)
  · rename_i hs
    split
    · refine ⟨?_, ?_⟩
      · intro c hc
        rcases List.mem_append.mp hc with hc | hc
        · exact h1 c hc
        · simp only [List.mem_singleton] at hc
          exact hc ▸ Nat.le_trans (trim_length_le _) h2
      · dsimp only
        simp at hs
        omega
    · rename_i hcs
      refine ⟨h1, ?_⟩
      dsimp only
      simp only [List.length_append] at hcs ⊢
      split <;> simp <;> omega

lemma sentFold_bounded (ss : List (List Char))
    (st : List (List Char) × List Char) (h : Bounded st) :
    Bounded (ss.foldl sentStep st) := by
  induction ss generalizing st with
  | nil => exact h
  | cons s rest ih => exact ih _ (sentStep_bounded st s h)

lemma paraStep_bounded (st : List (List Char) × List Char) (p : List Char)
    (h : Bounded st) : Bounded (paraStep st p) := by
  obtain ⟨h1, h2⟩ := h
  rcases st with ⟨chunks, cur⟩
  simp only [paraStep]
  have hflush : Bounded
      (if cur = [] then chunks else chunks ++ [trim cur], ([] : List Char)) := by
    refine ⟨?_, by simp⟩
    intro c hc
    split at hc
    · exact h1 c hc
    · rcases List.mem_append.mp hc with hc | hc
      · exact h1 c hc
      · simp only [List.mem_singleton] at hc
        exact hc ▸ Nat.le_trans (trim_length_le _) h2
  split
  · rename_i hbig
    split
    · exact sentFold_bounded _ _ hflush
    · rename_i hp
      refine ⟨hflush.1, ?_⟩
      dsimp only
      simp at hp
      omega
  · rename_i hsmall
    refine ⟨h1, ?_⟩
    dsimp only
    simp only [List.length_append] at hsmall ⊢
    split <;> simp <;> omega

lemma paraFold_bounded (ps : List (List Char))
    (st : List (List Char) × List Char) (h : Bounded st) :
    Bounded (ps.foldl paraStep st) := by
  induction ps generalizing st with
  | nil => exact h
  | cons p rest ih => exact ih _ (paraStep_bounded st p h)

/-! ## Content preservation -/

/-- The characters represented by a paragraph-scanner state, in input
order. -/
def paraStateChars : List (List Char) × List Char × Nat → List Char
  | (done, cur, pend) =>
    done.reverse.flatten ++ cur.reverse ++ List.replicate pend '\n'

lemma paraSplitStep_content (st : List (List Char) × List Char × Nat)
    (c : Char) :
    stripWs (paraStateChars (paraSplitStep st c)) =
      stripWs (paraStateChars st ++ [c]) := by
  rcases st with ⟨done, cur, pend⟩
  simp only [paraSplitStep]
  by_cases hc : c = '\n'
  · subst hc
    rw [if_pos rfl]
    simp [paraStateChars, stripWs_append, List.replicate_succ',
      List.append_assoc]
  · rw [if_neg hc]
    by_cases hp : pend ≥ 2
    · rw [if_pos hp]
      simp [paraStateChars, stripWs_append, stripWs_replicate_nl,
        List.append_assoc]
    · rw [if_neg hp]
      simp [paraStateChars, stripWs_append, stripWs_replicate_nl,
        List.append_assoc]

lemma paraFold_content (text : List Char) :
    ∀ st, stripWs (paraStateChars (text.foldl paraSplitStep st)) =
      stripWs (paraStateChars st ++ text) := by
  induction text with
  | nil => simp
  | cons c t ih =>
    intro st
    rw [List.foldl_cons, ih]
    rw [show paraStateChars st ++ c :: t =
      (paraStateChars st ++ [c]) ++ t from by simp]
    rw [stripWs_append, stripWs_append, paraSplitStep_content]

lemma finishParas_content (st : List (List Char) × List Char × Nat) :
    stripWs (finishParas st).flatten = stripWs (paraStateChars st) := by
  rcases st with ⟨done, cur, pend⟩
  simp only [finishParas, paraStateChars]
  by_cases hp : pend ≥ 2
  · rw [if_pos hp]
    simp [stripWs_append, stripWs_replicate_nl]
  · rw [if_neg hp]
    simp [stripWs_append, stripWs_replicate_nl]

/-- `text.split(/\n\n+/)` loses only whitespace (the separators). -/
lemma splitParas_content (text : List Char) :
    stripWs (splitParas text).flatten = stripWs text := by
  unfold splitParas
  rw [finishParas_content, paraFold_content]
  simp [paraStateChars]

lemma chunkFold_content :
    ∀ (ps : List (List Char)) (chunks : List (List Char)) (cur : List Char),
      (∀ p ∈ ps, p.length ≤ CHUNK_SIZE) →
      stripWs ((ps.foldl paraStep (chunks, cur)).1.flatten ++
        (ps.foldl paraStep (chunks, cur)).2) =
      stripWs (chunks.flatten ++ cur ++ ps.flatten) := by
  intro ps
  induction ps with
  | nil =>
    intro chunks cur _
    simp [stripWs_append]
  | cons p rest ih =>
    intro chunks cur hps
    have hp : p.length ≤ CHUNK_SIZE := hps p (List.mem_cons_self p rest)
    rw [List.foldl_cons]
    by_cases hbig : (cur ++ p).length > CHUNK_SIZE
    · have hstep : paraStep (chunks, cur) p =
          ((if cur = [] then chunks else chunks ++ [trim cur]), p) := by
        simp only [paraStep]
        rw [if_pos hbig, if_neg (by omega)]
      rw [hstep, ih _ _ (fun q hq => hps q (List.mem_cons_of_mem _ hq))]
      by_cases hcur : cur = []
      · subst hcur
        simp [stripWs_append]
      · rw [if_neg hcur]
        simp [stripWs_append, stripWs_trim, List.append_assoc]
    · rw [paraStep_merge hbig,
        ih _ _ (fun q hq => hps q (List.mem_cons_of_mem _ hq))]
      by_cases hcur : cur = []
      · subst hcur
        simp [stripWs_append]
      · rw [if_neg hcur]
        simp [stripWs_append, stripWs, isWs, List.append_assoc]

lemma finishChunks_content (st : List (List Char) × List Char) :
    stripWs (finishChunks st).flatten = stripWs (st.1.flatten ++ st.2) := by
  rcases st with ⟨chunks, cur⟩
  simp only [finishChunks]
  by_cases hcur : cur = []
  · subst hcur
    simp [stripWs_append]
  · rw [if_neg hcur]
    simp [stripWs_append, stripWs_trim]

/-- Content preservation for inputs whose paragraphs all fit in a
chunk: the chunker neither loses nor duplicates non-whitespace
characters. -/
lemma splitIntoChunks_content (text : List Char)
    (hpar : ∀ p ∈ splitParas text, p.length ≤ CHUNK_SIZE) :
    stripWs (splitIntoChunks text).flatten = stripWs text := by
  unfold splitIntoChunks
  rw [finishChunks_content, chunkFold_content (splitParas text) [] [] hpar]
  simpa using splitParas_content text

/-! ## Replicate helpers and concrete counterexample inputs -/

lemma head?_replicate (n : Nat) (c : Char) (hn : n ≠ 0) :
    (List.replicate n c).head? = some c := by
  cases n with
  | zero => exact absurd rfl hn
  | succ m => rw [List.replicate_succ]; rfl

lemma getLast?_replicate (n : Nat) (c : Char) (hn : n ≠ 0) :
    (List.replicate n c).getLast? = some c := by
  rw [← List.head?_reverse, List.reverse_replicate, head?_replicate n c hn]

lemma cleanPara_replicate {n : Nat} {c : Char} (hn : n ≠ 0)
    (hc : c ≠ '\n') : cleanPara (List.replicate n c) := by
  refine ⟨by simp [hn], noNN_of_not_mem_nl ?_, ?_, ?_⟩
  · rw [List.mem_replicate]
    rintro ⟨-, h⟩
    exact hc h.symm
  · rw [head?_replicate n c hn]
    intro h
    exact hc (Option.some.inj h)
  · rw [getLast?_replicate n c hn]
    intro h
    exact hc (Option.some.inj h)

lemma headNotWs_replicate {n : Nat} {c : Char} (hn : n ≠ 0)
    (hc : isWs c = false) : headNotWs (List.replicate n c) = true := by
  simp [headNotWs, head?_replicate n c hn, hc]

lemma lastNotWs_replicate {n : Nat} {c : Char} (hn : n ≠ 0)
    (hc : isWs c = false) : lastNotWs (List.replicate n c) = true := by
  simp [lastNotWs, getLast?_replicate n c hn, hc]

lemma splitParas_single (p : List Char) (hnn : noNN p = true)
    (hlast : p.getLast? ≠ some '\n') : splitParas p = [p] := by
  have := splitParas_sepJoin p [] hnn hlast (by intro r hr; simp at hr)
  simpa [sepJoin] using this

/-- Scanning a run of one repeated non-terminator character extends the
candidate match body. -/
lemma sentFold_replicate (c : Char) (hc : isTerm c = false) :
    ∀ (n : Nat) (ms : List (List Char)) (body : List Char),
      (List.replicate n c).foldl sentMatchStep (ms, body, []) =
        (ms, List.replicate n c ++ body, []) := by
  intro n
  induction n with
  | zero => simp
  | succ m ih =>
    intro ms body
    rw [List.replicate_succ, List.foldl_cons]
    rw [show sentMatchStep (ms, body, []) c = (ms, c :: body, []) from by
      simp [sentMatchStep, hc]]
    rw [ih]
    rw [show List.replicate m c ++ c :: body =
        (List.replicate m c ++ [c]) ++ body from by simp,
      ← List.replicate_succ', List.replicate_succ]

/-- C1 counterexample input: an over-long paragraph whose only
terminated sentence is `"A."`, followed by 3999 characters with no
sentence-terminal punctuation. -/
def cexC1 : List Char := 'A' :: '.' :: List.replicate 3999 'b'

lemma not_mem_nl_cexC1 : '\n' ∉ cexC1 := by
  simp only [cexC1, List.mem_cons, List.mem_replicate]
  decide

lemma getLast?_cexC1 : cexC1.getLast? = some 'b' := by
  rw [cexC1, List.getLast?_cons_cons,
    getLast?_cons_of_ne_nil (by simp [-List.reduceReplicate]),
    getLast?_replicate 3999 'b' (by norm_num)]

lemma matchSentences_cexC1 : matchSentences cexC1 = [['A', '.']] := by
  unfold matchSentences cexC1
  rw [show (3999 : Nat) = 3998 + 1 from by norm_num, List.replicate_succ]
  rw [List.foldl_cons, List.foldl_cons, List.foldl_cons]
  rw [show sentMatchStep (([] : List (List Char)), ([] : List Char),
      ([] : List Char)) 'A' = ([], ['A'], []) from by decide]
  rw [show sentMatchStep (([] : List (List Char)), ['A'], ([] : List Char))
      '.' = ([], ['A'], ['.']) from by decide]
  rw [show sentMatchStep (([] : List (List Char)), ['A'], ['.']) 'b' =
      ([['A', '.']], ['b'], []) from by decide]
  rw [sentFold_replicate 'b' (by decide) 3998 _ _]
  rw [finishSents]
  simp

lemma sentencesOf_cexC1 : sentencesOf cexC1 = [['A', '.']] := by
  rw [sentencesOf, matchSentences_cexC1]
  simp

lemma length_cexC1 : cexC1.length = 4001 := by
  simp [cexC1, -List.reduceReplicate]

lemma splitIntoChunks_cexC1 : splitIntoChunks cexC1 = [['A', '.']] := by
  unfold splitIntoChunks
  rw [splitParas_single cexC1
    (noNN_of_not_mem_nl not_mem_nl_cexC1)
    (by rw [getLast?_cexC1]; decide)]
  rw [List.foldl_cons, List.foldl_nil]
  have hstep : paraStep (([] : List (List Char)), ([] : List Char)) cexC1 =
      ([], ['A', '.']) := by
    simp only [paraStep]
    rw [if_pos (by rw [List.nil_append, length_cexC1]; decide)]
    rw [if_pos (by rw [length_cexC1]; decide)]
    rw [sentencesOf_cexC1]
    decide
  rw [hstep]
  decide

/-- C2 counterexample input: two paragraphs of 2000 and 1999 characters
separated by a blank line; the greedy merge produces a single chunk of
4001 characters. -/
def cexC2a : List Char := List.replicate 2000 'a'

def cexC2b : List Char := List.replicate 1999 'b'

def cexC2 : List Char := cexC2a ++ '\n' :: '\n' :: cexC2b

lemma splitParas_cexC2 : splitParas cexC2 = [cexC2a, cexC2b] := by
  have h1 : cleanPara cexC2a := cleanPara_replicate (by norm_num) (by decide)
  have h2 : cleanPara cexC2b := cleanPara_replicate (by norm_num) (by decide)
  have := splitParas_sepJoin cexC2a [cexC2b] h1.2.1 h1.2.2.2
    (by
      intro r hr
      simp only [List.mem_singleton] at hr
      exact hr ▸ h2)
  simpa [sepJoin, cexC2, -List.reduceReplicate] using this

lemma length_cexC2 : cexC2.length = 4001 := by
  simp [cexC2, cexC2a, cexC2b, List.length_append, -List.reduceReplicate]

lemma splitIntoChunks_cexC2 : splitIntoChunks cexC2 = [cexC2] := by
  unfold splitIntoChunks
  rw [splitParas_cexC2, List.foldl_cons, List.foldl_cons, List.foldl_nil]
  have e1 : paraStep (([] : List (List Char)), ([] : List Char)) cexC2a =
      ([], cexC2a) := by
    rw [paraStep_merge (by simp [cexC2a, CHUNK_SIZE, -List.reduceReplicate])]
    simp
  have e2 : paraStep (([] : List (List Char)), cexC2a) cexC2b =
      ([], cexC2a ++ ['\n', '\n'] ++ cexC2b) := by
    rw [paraStep_merge (by
      simp [cexC2a, cexC2b, List.length_append, CHUNK_SIZE,
        -List.reduceReplicate])]
    rw [if_neg (by simp [cexC2a, -List.reduceReplicate])]
  rw [e1, e2]
  simp only [finishChunks]
  rw [show cexC2a ++ ['\n', '\n'] ++ cexC2b =
    cexC2a ++ '\n' :: '\n' :: cexC2b from by simp]
  rw [if_neg (by simp [cexC2a, -List.reduceReplicate])]
  rw [trim_eq_self
    (by
      rw [headNotWs_append _
        (by simp [cexC2a, -List.reduceReplicate] : cexC2a ≠ [])]
      exact headNotWs_replicate (by norm_num) (by decide))
    (by
      rw [lastNotWs_sep cexC2a
        (by simp [cexC2b, -List.reduceReplicate] : cexC2b ≠ [])]
      exact lastNotWs_replicate (by norm_num) (by decide))]
  simp [cexC2]

/-! ## POST helper lemmas -/

lemma dropWhile_replicate {c : Char} (n : Nat) (hc : isWs c = false) :
    (List.replicate n c).dropWhile isWs = List.replicate n c := by
  cases n with
  | zero => rfl
  | succ m =>
    rw [List.replicate_succ, List.dropWhile_cons, if_neg (by simp [hc])]

lemma trim_replicate {c : Char} (n : Nat) (hc : isWs c = false) :
    trim (List.replicate n c) = List.replicate n c := by
  unfold trim
  rw [dropWhile_replicate n hc, List.reverse_replicate,
    dropWhile_replicate n hc, List.reverse_replicate]

/-- `Promise.all` pairing: a successful batch has one result per chunk,
positionally produced by the service from that chunk. -/
lemma refineAll_spec (service : List Char → Option (List Char)) :
    ∀ (l r : List (List Char)),
      refineAll service l = some r →
      r.length = l.length ∧
      ∀ i (h1 : i < l.length) (h2 : i < r.length),
        service (l.get ⟨i, h1⟩) = some (r.get ⟨i, h2⟩) := by
  intro l
  induction l with
  | nil =>
    intro r h
    rw [refineAll] at h
    injection h with h
    subst h
    exact ⟨rfl, by intro i h1 h2; simp at h1⟩
  | cons c cs ih =>
    intro r h
    cases hc : processChunk service c with
    | none => rw [refineAll, hc] at h; cases h
    | some rc =>
      cases hrest : refineAll service cs with
      | none => rw [refineAll, hc, hrest] at h; cases h
      | some rs =>
        rw [refineAll, hc, hrest] at h
        injection h with h
        subst h
        obtain ⟨hl, hp⟩ := ih rs hrest
        refine ⟨by simp [hl], ?_⟩
        intro i h1 h2
        cases i with
        | zero => simpa [processChunk] using hc
        | succ j =>
          simp only [List.length_cons] at h1 h2
          exact hp j (by omega) (by omega)

/-! ## Claim theorems -/

/-- A trivial concrete refinement service used in witnesses: it returns
each chunk unchanged. -/
def svcEcho : List Char → Option (List Char) := fun c => some c

/-- C1 counterexample: the input `"A."` followed by 3999 characters
without sentence-terminal punctuation is under the maximum total
length, yet chunking it keeps only `"A."`: the trailing 3999
non-whitespace characters are lost, so concatenating the chunks is not
equivalent to the input modulo normalized whitespace. -/
theorem C1_counterexample :
    cexC1.length ≤ MAX_TOTAL_LENGTH ∧
    splitIntoChunks cexC1 = [['A', '.']] ∧
    stripWs (splitIntoChunks cexC1).flatten ≠ stripWs cexC1 := by
  refine ⟨by rw [length_cexC1]; decide, splitIntoChunks_cexC1, ?_⟩
  rw [splitIntoChunks_cexC1]
  intro h
  have h1 : stripWs ([['A', '.']] : List (List Char)).flatten = ['A', '.'] := by
    decide
  have h2 : stripWs cexC1 = cexC1 := by
    simp [cexC1, stripWs, isWs, List.filter_replicate, -List.reduceReplicate]
  rw [h1, h2] at h
  have := congrArg List.length h
  rw [length_cexC1] at this
  simp at this

/-- C1 (amended): for every input string under the maximum total length
in which every blank-line-delimited paragraph fits within `CHUNK_SIZE`,
concatenating the chunks returned by `splitIntoChunks` reconstructs
content equivalent to the original input modulo normalized whitespace:
no non-whitespace character is lost or duplicated. -/
theorem C1_chunks_preserve_content (text : List Char)
    (_hmax : text.length ≤ MAX_TOTAL_LENGTH)
    (hpar : ∀ p ∈ splitParas text, p.length ≤ CHUNK_SIZE) :
    stripWs (splitIntoChunks text).flatten = stripWs text :=
  splitIntoChunks_content text hpar

theorem C1_chunks_preserve_content_witness :
    ((['H', 'i', '.', '\n', '\n', 'o', 'k'] : List Char).length ≤
        MAX_TOTAL_LENGTH ∧
      (∀ p ∈ splitParas ['H', 'i', '.', '\n', '\n', 'o', 'k'],
        p.length ≤ CHUNK_SIZE)) ∧
    stripWs (splitIntoChunks ['H', 'i', '.', '\n', '\n', 'o', 'k']).flatten =
      stripWs ['H', 'i', '.', '\n', '\n', 'o', 'k'] :=
  ⟨⟨by decide, by decide⟩,
    C1_chunks_preserve_content ['H', 'i', '.', '\n', '\n', 'o', 'k']
      (by decide) (by decide)⟩

/-- C2 counterexample: two paragraphs of 2000 and 1999 characters
separated by a blank line are merged into a single chunk of 4001
characters, exceeding `CHUNK_SIZE = 4000`; the chunk spans a paragraph
break, so it is not a single irreducible sentence fragment. -/
theorem C2_counterexample :
    splitIntoChunks cexC2 = [cexC2] ∧ cexC2.length = 4001 ∧
      CHUNK_SIZE < 4001 ∧ '\n' ∈ cexC2 :=
  ⟨splitIntoChunks_cexC2, length_cexC2, by decide,
    by simp [cexC2, -List.reduceReplicate]⟩

/-- C2 (amended): every chunk returned by `splitIntoChunks` has length
at most `CHUNK_SIZE + 2`: the greedy size check omits the separator
(two characters for a paragraph break, one for a sentence space) that
is subsequently appended, and force-sliced pieces of over-long
sentences are at most `CHUNK_SIZE`. -/
theorem C2_chunk_length_bound (text : List Char) :
    ∀ c ∈ splitIntoChunks text, c.length ≤ CHUNK_SIZE + 2 := by
  have hb := paraFold_bounded (splitParas text) ([], [])
    ⟨by simp, by simp⟩
  unfold splitIntoChunks
  rcases hst : (splitParas text).foldl paraStep ([], []) with ⟨chunks, cur⟩
  rw [hst] at hb
  intro c hc
  simp only [finishChunks] at hc
  split at hc
  · exact hb.1 c hc
  · rcases List.mem_append.mp hc with hc | hc
    · exact hb.1 c hc
    · simp only [List.mem_singleton] at hc
      exact hc ▸ Nat.le_trans (trim_length_le _) hb.2

theorem C2_chunk_length_bound_witness :
    (['h', 'i'] ∈ splitIntoChunks ['h', 'i']) ∧
    (['h', 'i'] : List Char).length ≤ CHUNK_SIZE + 2 :=
  ⟨by decide, C2_chunk_length_bound ['h', 'i'] ['h', 'i'] (by decide)⟩

/-- C3: with the credential present, a request at time `now1` inside the
window of a state whose counter has reached `MAX_REQUESTS` is rejected
with status 429; a request at time `now2` strictly after the window has
elapsed is not rejected for rate limiting, restarts the window at
`now2`, and resets the counter to zero (then increments it per
dispatched chunk if the request succeeds). -/
theorem C3_rate_limiter (service : List Char → Option (List Char))
    (body : Option (Option (List Char))) (s : RLState) (now1 now2 : Nat)
    (hfull : s.requestCount = MAX_REQUESTS)
    (h1 : now1 ≤ s.windowStart + RATE_LIMIT_WINDOW)
    (h2 : now2 > s.windowStart + RATE_LIMIT_WINDOW) :
    (POST true service now1 body s).status = 429 ∧
    (POST true service now2 body s).status ≠ 429 ∧
    (POST true service now2 body s).state.windowStart = now2 ∧
    (POST true service now2 body s).state.requestCount =
      (if (POST true service now2 body s).status = 200
       then (POST true service now2 body s).dispatched.length else 0) := by
  have hr1 : resetState now1 s = s := by
    rw [resetState, if_neg (by omega)]
  have hr2 : resetState now2 s = ⟨0, now2⟩ := by
    rw [resetState, if_pos (by omega)]
  have hge : (resetState now1 s).requestCount ≥ MAX_REQUESTS := by
    rw [hr1, hfull]
  have hlt : ¬(resetState now2 s).requestCount ≥ MAX_REQUESTS := by
    rw [hr2]
    simp [MAX_REQUESTS]
  refine ⟨by simp [POST, hge], ?_⟩
  rcases body with _ | topt
  · simp [POST, hlt, hr2, MAX_REQUESTS]
  rcases topt with _ | text
  · simp [POST, hlt, hr2, MAX_REQUESTS]
  by_cases hval : text = [] ∨ trim text = []
  · simp [POST, hlt, hr2, hval, MAX_REQUESTS]
  by_cases hlong : text.length > MAX_TOTAL_LENGTH
  · simp [POST, hlt, hr2, hval, hlong, MAX_REQUESTS]
  cases href : refineAll service (splitIntoChunks text) with
  | none => simp [POST, hlt, hr2, hval, hlong, href, MAX_REQUESTS]
  | some refined => simp [POST, hlt, hr2, hval, hlong, href, MAX_REQUESTS]

theorem C3_rate_limiter_witness :
    ((⟨60, 0⟩ : RLState).requestCount = MAX_REQUESTS ∧
      (0 : Nat) ≤ (⟨60, 0⟩ : RLState).windowStart + RATE_LIMIT_WINDOW ∧
      (3600001 : Nat) > (⟨60, 0⟩ : RLState).windowStart + RATE_LIMIT_WINDOW) ∧
    ((POST true svcEcho 0 (some (some ['h', 'i'])) ⟨60, 0⟩).status = 429 ∧
     (POST true svcEcho 3600001 (some (some ['h', 'i'])) ⟨60, 0⟩).status ≠ 429 ∧
     (POST true svcEcho 3600001 (some (some ['h', 'i'])) ⟨60, 0⟩).state.windowStart
        = 3600001 ∧
     (POST true svcEcho 3600001 (some (some ['h', 'i'])) ⟨60, 0⟩).state.requestCount
        = (if (POST true svcEcho 3600001 (some (some ['h', 'i'])) ⟨60, 0⟩).status = 200
           then (POST true svcEcho 3600001
             (some (some ['h', 'i'])) ⟨60, 0⟩).dispatched.length
           else 0)) :=
  ⟨⟨rfl, by decide, by decide⟩,
    C3_rate_limiter svcEcho (some (some ['h', 'i'])) ⟨60, 0⟩ 0 3600001
      rfl (by decide) (by decide)⟩

theorem C4_three_paragraphs_one_chunk_witness :
    (cleanPara ['a'] ∧ cleanPara ['b'] ∧ cleanPara ['c'] ∧
      headNotWs ['a'] = true ∧ lastNotWs ['c'] = true ∧
      (['a'] ++ '\n' :: '\n' :: (['b'] ++ '\n' :: '\n' :: ['c'])).length <
        CHUNK_SIZE) ∧
    splitIntoChunks (['a'] ++ '\n' :: '\n' :: (['b'] ++ '\n' :: '\n' :: ['c']))
      = [['a'] ++ '\n' :: '\n' :: (['b'] ++ '\n' :: '\n' :: ['c'])] :=
  ⟨⟨by decide, by decide, by decide, by decide, by decide, by decide⟩,
    C4_three_paragraphs_one_chunk ['a'] ['b'] ['c'] (by decide) (by decide)
      (by decide) (by decide) (by decide) (by decide)⟩

/-- C5: a request whose `text` field is missing, empty, or
whitespace-only, reaching validation (credential present, not
rate-limited), yields status 400 with the validation error message and
dispatches no chunk to the external service. -/
theorem C5_empty_text_validation (service : List Char → Option (List Char))
    (now : Nat) (body : Option (Option (List Char))) (s : RLState)
    (hrl : (resetState now s).requestCount < MAX_REQUESTS)
    (hbody : body = some none ∨
      ∃ t, body = some (some t) ∧ trim t = []) :
    (POST true service now body s).status = 400 ∧
    (POST true service now body s).error = some "No text provided" ∧
    (POST true service now body s).dispatched = [] := by
  have hN : ¬(resetState now s).requestCount ≥ MAX_REQUESTS := by omega
  rcases hbody with h | ⟨t, h, ht⟩
  · subst h
    simp [POST, hN]
  · subst h
    simp [POST, hN, ht]

theorem C5_empty_text_validation_witness :
    ((resetState 5 ⟨3, 2⟩).requestCount < MAX_REQUESTS ∧
      (some (some ([' '] : List Char)) = some none ∨
        ∃ t, some (some ([' '] : List Char)) = some (some t) ∧ trim t = [])) ∧
    ((POST true svcEcho 5 (some (some [' '])) ⟨3, 2⟩).status = 400 ∧
     (POST true svcEcho 5 (some (some [' '])) ⟨3, 2⟩).error =
        some "No text provided" ∧
     (POST true svcEcho 5 (some (some [' '])) ⟨3, 2⟩).dispatched = []) :=
  ⟨⟨by decide, Or.inr ⟨[' '], rfl, by decide⟩⟩,
    C5_empty_text_validation svcEcho 5 (some (some [' '])) ⟨3, 2⟩ (by decide)
      (Or.inr ⟨[' '], rfl, by decide⟩)⟩

/-- C6: a request whose text exceeds `MAX_TOTAL_LENGTH`, reaching
validation with non-blank text, yields status 400 with an error message
citing the configured limit, and dispatches no chunk to the external
service. -/
theorem C6_overlong_text_validation (service : List Char → Option (List Char))
    (now : Nat) (text : List Char) (s : RLState)
    (hrl : (resetState now s).requestCount < MAX_REQUESTS)
    (hne : trim text ≠ [])
    (hlong : text.length > MAX_TOTAL_LENGTH) :
    (POST true service now (some (some text)) s).status = 400 ∧
    (POST true service now (some (some text)) s).error = some tooLongMsg ∧
    tooLongMsg = "Text exceeds maximum length of 50000 characters" ∧
    (POST true service now (some (some text)) s).dispatched = [] := by
  have hN : ¬(resetState now s).requestCount ≥ MAX_REQUESTS := by omega
  have hval : ¬(text = [] ∨ trim text = []) := by
    rintro (h | h)
    · exact hne (by rw [h]; rfl)
    · exact hne h
  refine ⟨?_, ?_, by decide, ?_⟩ <;> simp [POST, hN, hval, hlong]

theorem C6_overlong_text_validation_witness :
    ((resetState 0 ⟨0, 0⟩).requestCount < MAX_REQUESTS ∧
      trim (List.replicate 50001 'a') ≠ [] ∧
      (List.replicate 50001 'a').length > MAX_TOTAL_LENGTH) ∧
    ((POST true svcEcho 0 (some (some (List.replicate 50001 'a')))
        ⟨0, 0⟩).status = 400 ∧
     (POST true svcEcho 0 (some (some (List.replicate 50001 'a')))
        ⟨0, 0⟩).error = some tooLongMsg ∧
     tooLongMsg = "Text exceeds maximum length of 50000 characters" ∧
     (POST true svcEcho 0 (some (some (List.replicate 50001 'a')))
        ⟨0, 0⟩).dispatched = []) :=
  ⟨⟨by decide,
    by
      rw [trim_replicate 50001 (by decide)]
      simp [-List.reduceReplicate],
    by simp [MAX_TOTAL_LENGTH, -List.reduceReplicate]⟩,
    C6_overlong_text_validation svcEcho 0 (List.replicate 50001 'a') ⟨0, 0⟩
      (by decide)
      (by
        rw [trim_replicate 50001 (by decide)]
        simp [-List.reduceReplicate])
      (by simp [MAX_TOTAL_LENGTH, -List.reduceReplicate])⟩

/-- C7: when the credential environment variable is absent, `POST`
returns status 500 with the configuration-error message, leaves the
rate-limit state untouched, and dispatches nothing, regardless of the
clock, request body, or state — before validation, rate-limit
accounting, or any call to the external service. -/
theorem C7_missing_key_config_error (service : List Char → Option (List Char))
    (now : Nat) (body : Option (Option (List Char))) (s : RLState) :
    POST false service now body s =
      ⟨500, some "API configuration error", none, s, []⟩ := rfl

/-- C8: on a successful request the chunks dispatched to the service are
exactly `splitIntoChunks text` in order, the refined chunks are paired
positionally with their source chunks, and the response reassembles the
refined chunks in that same order. -/
theorem C8_order_preserved (service : List Char → Option (List Char))
    (now : Nat) (text : List Char) (s : RLState)
    (refined : List (List Char))
    (hrl : (resetState now s).requestCount < MAX_REQUESTS)
    (hne : trim text ≠ [])
    (hlen : text.length ≤ MAX_TOTAL_LENGTH)
    (hall : refineAll service (splitIntoChunks text) = some refined) :
    (POST true service now (some (some text)) s).status = 200 ∧
    (POST true service now (some (some text)) s).dispatched =
      splitIntoChunks text ∧
    refined.length = (splitIntoChunks text).length ∧
    (∀ i (h1 : i < (splitIntoChunks text).length) (h2 : i < refined.length),
      service ((splitIntoChunks text).get ⟨i, h1⟩) =
        some (refined.get ⟨i, h2⟩)) ∧
    (POST true service now (some (some text)) s).refinedText =
      some (reassemble refined) := by
  have hN : ¬(resetState now s).requestCount ≥ MAX_REQUESTS := by omega
  have hval : ¬(text = [] ∨ trim text = []) := by
    rintro (h | h)
    · exact hne (by rw [h]; rfl)
    · exact hne h
  have hlong : ¬text.length > MAX_TOTAL_LENGTH := by omega
  obtain ⟨hl, hp⟩ := refineAll_spec service (splitIntoChunks text) refined hall
  refine ⟨?_, ?_, hl, hp, ?_⟩ <;> simp [POST, hN, hval, hlong, hall]

theorem C8_order_preserved_witness :
    ((resetState 0 ⟨0, 0⟩).requestCount < MAX_REQUESTS ∧
      trim ['h', 'i'] ≠ [] ∧
      (['h', 'i'] : List Char).length ≤ MAX_TOTAL_LENGTH ∧
      refineAll svcEcho (splitIntoChunks ['h', 'i']) = some [['h', 'i']]) ∧
    ((POST true svcEcho 0 (some (some ['h', 'i'])) ⟨0, 0⟩).status = 200 ∧
     (POST true svcEcho 0 (some (some ['h', 'i'])) ⟨0, 0⟩).dispatched =
        splitIntoChunks ['h', 'i'] ∧
     ([['h', 'i']] : List (List Char)).length =
        (splitIntoChunks ['h', 'i']).length ∧
     (∀ i (h1 : i < (splitIntoChunks ['h', 'i']).length)
        (h2 : i < ([['h', 'i']] : List (List Char)).length),
        svcEcho ((splitIntoChunks ['h', 'i']).get ⟨i, h1⟩) =
          some (([['h', 'i']] : List (List Char)).get ⟨i, h2⟩)) ∧
     (POST true svcEcho 0 (some (some ['h', 'i'])) ⟨0, 0⟩).refinedText =
        some (reassemble [['h', 'i']])) :=
  ⟨⟨by decide, by decide, by decide, by decide⟩,
    C8_order_preserved svcEcho 0 ['h', 'i'] ⟨0, 0⟩ [['h', 'i']] (by decide)
      (by decide) (by decide) (by decide)⟩

/-- C9: on every successful (status 200) request inside an active
window, the rate-limit counter increases by the number of chunks
produced from the input text — the list of dispatched chunks — not by
one per request. -/
theorem C9_count_increases_by_chunks
    (service : List Char → Option (List Char)) (now : Nat)
    (text : List Char) (s : RLState)
    (hact : now ≤ s.windowStart + RATE_LIMIT_WINDOW)
    (h200 : (POST true service now (some (some text)) s).status = 200) :
    (POST true service now (some (some text)) s).state.requestCount =
      s.requestCount + (splitIntoChunks text).length ∧
    (POST true service now (some (some text)) s).dispatched =
      splitIntoChunks text := by
  have hr : resetState now s = s := by
    rw [resetState, if_neg (by omega)]
  by_cases hN : (resetState now s).requestCount ≥ MAX_REQUESTS
  · simp [POST, hN] at h200
  by_cases hval : text = [] ∨ trim text = []
  · simp [POST, hN, hval] at h200
  by_cases hlong : text.length > MAX_TOTAL_LENGTH
  · simp [POST, hN, hval, hlong] at h200
  cases href : refineAll service (splitIntoChunks text) with
  | none => simp [POST, hN, hval, hlong, href] at h200
  | some refined =>
    rw [hr] at hN
    simp [POST, hN, hval, hlong, href, hr]

theorem C9_count_increases_by_chunks_witness :
    ((0 : Nat) ≤ (⟨7, 0⟩ : RLState).windowStart + RATE_LIMIT_WINDOW ∧
      (POST true svcEcho 0 (some (some ['h', 'i'])) ⟨7, 0⟩).status = 200) ∧
    ((POST true svcEcho 0 (some (some ['h', 'i'])) ⟨7, 0⟩).state.requestCount
        = (⟨7, 0⟩ : RLState).requestCount +
          (splitIntoChunks ['h', 'i']).length ∧
     (POST true svcEcho 0 (some (some ['h', 'i'])) ⟨7, 0⟩).dispatched =
        splitIntoChunks ['h', 'i']) :=
  ⟨⟨by decide, by decide⟩,
    C9_count_increases_by_chunks svcEcho 0 ['h', 'i'] ⟨7, 0⟩ (by decide)
      (by decide)⟩

/-- C10: whenever `POST` returns a non-200 response during an active
window (the window has not elapsed), the rate-limit counter is left
unchanged: rejected, invalid, and failed requests consume no rate-limit
budget. -/
theorem C10_failures_consume_no_budget (hasApiKey : Bool)
    (service : List Char → Option (List Char)) (now : Nat)
    (body : Option (Option (List Char))) (s : RLState)
    (hact : now ≤ s.windowStart + RATE_LIMIT_WINDOW)
    (hfail : (POST hasApiKey service now body s).status ≠ 200) :
    (POST hasApiKey service now body s).state.requestCount =
      s.requestCount := by
  have hr : resetState now s = s := by
    rw [resetState, if_neg (by omega)]
  cases hasApiKey with
  | false => simp [POST]
  | true =>
    by_cases hN : MAX_REQUESTS ≤ s.requestCount
    · simp [POST, hN, hr]
    rcases body with _ | topt
    · simp [POST, hN, hr]
    rcases topt with _ | text
    · simp [POST, hN, hr]
    by_cases hval : text = [] ∨ trim text = []
    · simp [POST, hN, hval, hr]
    by_cases hlong : text.length > MAX_TOTAL_LENGTH
    · simp [POST, hN, hval, hlong, hr]
    cases href : refineAll service (splitIntoChunks text) with
    | none => simp [POST, hN, hval, hlong, href, hr]
    | some refined =>
      exfalso
      exact hfail (by simp [POST, hN, hval, hlong, href, hr])

theorem C10_failures_consume_no_budget_witness :
    ((5 : Nat) ≤ (⟨9, 4⟩ : RLState).windowStart + RATE_LIMIT_WINDOW ∧
      (POST true svcEcho 5 (some none) ⟨9, 4⟩).status ≠ 200) ∧
    (POST true svcEcho 5 (some none) ⟨9, 4⟩).state.requestCount =
      (⟨9, 4⟩ : RLState).requestCount :=
  ⟨⟨by decide, by decide⟩,
    C10_failures_consume_no_budget true svcEcho 5 (some none) ⟨9, 4⟩
      (by decide) (by decide)⟩

end MTNovel

